import Mathlib

/-!
Verification of the voxnova translation resolution engine (src/index.ts).

The runtime core is embedded shallowly: JS strings become `List Char`,
JS objects (catalogs, options records) become association lists, thrown
`Error(message)` values become `Except` errors carrying the message, and
the `Intl` platform services (plural-rule selection, number formatting)
together with JS number stringification are abstracted into an explicit
`IntlEnv` parameter, since they are external to the repository.

Deviations from the source, each noted at its definition and carried as
an explicit hypothesis by every theorem whose quantifiers would
otherwise reach an input where the model and the program part ways:
the regex `{name(?::([^}]+))?}` is modelled as a structural scan, which
is the regex's exact meaning when the interpolated argument name
contains no regex metacharacter (`regexSafeName`) — for other names the
real pattern changes structure (a `|` in the name splits the whole
pattern into alternatives) or fails to compile with a RegExp
SyntaxError, behavior outside this embedding; JS `String.replace` and
`String.replaceAll` apply GetSubstitution to the replacement text,
which this model inserts verbatim, the regex's exact meaning when the
replacement contains no dollar sign (`dollarFree`); the `while` loop of
`getOrderedLocaleAndParentLocales`, which never terminates when the
stripping regex makes no progress (e.g. a tag ending in `-`), is
truncated at that point.
-/

namespace Voxnova

/-- JS strings are modelled as lists of characters. -/
abbrev Str := List Char

/-- The `{` character (written via its code point to keep literals uniform). -/
def lbrace : Char := Char.ofNat 123

/-- The `}` character. -/
def rbrace : Char := Char.ofNat 125

/-- `begins pat s` is true when `pat` is a prefix of `s` (JS `startsWith`). -/
def begins : Str → Str → Bool
  | [], _ => true
  | _ :: _, [] => false
  | p :: ps, c :: cs => p == c && begins ps cs

/-- JS `String.prototype.replace` with a string pattern: replaces the
leftmost occurrence of `pat` in `s` by `repl`.  The source additionally
applies GetSubstitution `$`-expansion to `repl` (`$$`, `$&` and the
before/after forms); this model inserts `repl` verbatim, which is the
exact behavior whenever `repl` contains no `$` — the `dollarFree`
hypothesis carried by theorems whose replacement text is arbitrary. -/
def replaceFirst (s pat repl : Str) : Str :=
  if begins pat s then repl ++ s.drop pat.length
  else
    match s with
    | [] => []
    | c :: cs => c :: replaceFirst cs pat repl

/-- The literal three-character marker `{?}` used inside plural texts. -/
def qpat : Str := [lbrace, '?', rbrace]

/-- `hasQ s` is true when the marker `{?}` occurs somewhere in `s`. -/
def hasQ : Str → Bool
  | [] => false
  | c :: rest => begins qpat (c :: rest) || hasQ rest

/-- JS `replacement.replaceAll("{?}", repl)`: replaces every
non-overlapping occurrence of `{?}` left to right, without rescanning
replaced text.  Like `replaceFirst`, the model inserts `repl` verbatim
where the source would `$`-expand it, exact whenever `repl` contains no
`$` (the `dollarFree` hypothesis of the theorems concerned). -/
def replaceQAll (repl : Str) : Str → Str
  | [] => []
  | [c] => [c]
  | [c, c'] => [c, c']
  | c₁ :: c₂ :: c₃ :: rest =>
    if c₁ = lbrace ∧ c₂ = '?' ∧ c₃ = rbrace then repl ++ replaceQAll repl rest
    else c₁ :: replaceQAll repl (c₂ :: c₃ :: rest)

/-- Attempt of the regex `{name(?::([^}]+))?}` at the start of `s`:
returns the matched text and the captured type, if any.  The typed
branch requires a nonempty run of non-`}` characters followed by `}`.
The source interpolates `name` into the pattern unescaped; this
structural attempt is the pattern's exact meaning when `name` contains
no regex metacharacter (`regexSafeName`), the hypothesis carried by
every theorem that assumes something about a match.  For other names
the real pattern's shape changes (e.g. a `|` in the name splits the
whole pattern into alternatives) or the pattern fails to compile. -/
def matchAt (name : Str) (s : Str) : Option (Str × Option Str) :=
  if begins (lbrace :: name ++ [rbrace]) s then
    some (lbrace :: name ++ [rbrace], none)
  else if begins (lbrace :: name ++ [':']) s then
    let rest := s.drop (name.length + 2)
    let ty := rest.takeWhile (fun c => c != rbrace)
    if ty.isEmpty then none
    else if (rest.drop ty.length).head? = some rbrace then
      some (lbrace :: name ++ ':' :: ty ++ [rbrace], some ty)
    else none
  else none

/-- `result.match(`{name(?::([^}]+))?}`)`: leftmost match of the
placeholder regex for `name` in `s`, via `matchAt` at each position.
Exact for `regexSafeName` names (see `matchAt`); for names that form an
invalid pattern the source's `match` call instead throws a RegExp
SyntaxError, an error path this embedding does not model. -/
def findMatch (s : Str) (name : Str) : Option (Str × Option Str) :=
  match matchAt name s with
  | some r => some r
  | none =>
    match s with
    | [] => none
    | _ :: cs => findMatch cs name

/-- JS `key.split(".")`: always returns at least one (possibly empty)
segment; empty segments are kept. -/
def splitOnDot : Str → List Str
  | [] => [[]]
  | c :: cs =>
    if c = '.' then [] :: splitOnDot cs
    else
      match splitOnDot cs with
      | [] => [[c]]
      | g :: gs => (c :: g) :: gs

/-- JS object property access `obj[k]` for objects modelled as
association lists (keys are unique in real catalogs; first match). -/
def lookupAssoc {α : Type} : List (Str × α) → Str → Option α
  | [], _ => none
  | (k, v) :: rest, key => if k = key then some v else lookupAssoc rest key

/-- First index of `x` in `l` (length of `l` when absent). -/
def firstIdx (x : Str) : List Str → Nat
  | [] => 0
  | y :: ys => if y = x then 0 else firstIdx x ys + 1

/-- `Intl.PluralRuleType`: cardinal ("counting") or ordinal ("ordering"). -/
inductive PluralType where
  | cardinal : PluralType
  | ordinal : PluralType
deriving DecidableEq

/-- `Intl.LDMLPluralRule`: the six CLDR plural categories. -/
inductive PluralCat where
  | zero : PluralCat
  | one : PluralCat
  | two : PluralCat
  | few : PluralCat
  | many : PluralCat
  | other : PluralCat
deriving DecidableEq

/-- `Intl.NumberFormatOptions` from `define-translation.ts`.  The engine
never interprets these fields itself; they are passed whole to the
(abstracted) `Intl.NumberFormat` service, so only the fields the test
fixtures use are carried. -/
structure NumberFormatOptions where
  style : Option Str
  currency : Option Str
deriving DecidableEq

/-- `Intl.DateTimeFormatOptions`, likewise an uninterpreted payload. -/
structure DateOptions where
  dateStyle : Option Str
deriving DecidableEq

/-- `PluralOptions` from `define-translation.ts`: per-category texts with
the mandatory `other`, the optional rule type, and optional number-format
options for the `{?}` count. -/
structure PluralOptions where
  zero : Option Str
  one : Option Str
  two : Option Str
  few : Option Str
  many : Option Str
  other : Str
  type : Option PluralType
  formatter : Option NumberFormatOptions
deriving DecidableEq

/-- JS property access `pluralOptions[category]`; the mandatory `other`
field is always present. -/
def PluralOptions.get? (po : PluralOptions) : PluralCat → Option Str
  | .zero => po.zero
  | .one => po.one
  | .two => po.two
  | .few => po.few
  | .many => po.many
  | .other => some po.other

/-- The runtime shape of `dt`'s second component: a record keyed by
placeholder type, then by parameter name.  `performSubstitution` only
ever reads the `plural` field; `number` and `date` are carried (they
occur in the repository's fixtures) but never consulted by the engine. -/
structure ParamOptions where
  plural : Option (List (Str × PluralOptions))
  number : Option (List (Str × NumberFormatOptions))
  date : Option (List (Str × DateOptions))
deriving DecidableEq

/-- `(paramOptions as ...)?.plural?.[argName]`. -/
def pluralOptionsFor (opts : Option ParamOptions) (argName : Str) : Option PluralOptions :=
  match opts with
  | none => none
  | some o =>
    match o.plural with
    | none => none
    | some m => lookupAssoc m argName

/-- A node of a `LanguageMessages` catalog: a bare string, a `dt` pair
`[template, paramOptions]` (`Array.isArray` at runtime), or a nested
catalog object.  The source discriminates these shapes with
`typeof`/`Array.isArray`; here they are an explicit tagged union. -/
inductive Entry where
  | str : Str → Entry
  | pair : Str → Option ParamOptions → Entry
  | obj : List (Str × Entry) → Entry

/-- A per-locale catalog: a JS object from keys to entries. -/
abbrev Catalog := List (Str × Entry)

/-- A caller-supplied argument value (`string | number`).  JS numbers are
modelled as rationals. -/
inductive Arg where
  | str : Str → Arg
  | num : ℚ → Arg
deriving DecidableEq

/-- The external JS/`Intl` services the engine calls: CLDR plural-rule
selection (`Intl.PluralRules(locale, {type}).select`), locale-aware
number formatting (`new Intl.NumberFormat(locale, options).format`), and
plain number stringification (`String(n)`).  The engine is verified for
every such environment; witnesses instantiate a concrete one. -/
structure IntlEnv where
  pluralSelect : Str → Option PluralType → ℚ → PluralCat
  formatNumber : Str → Option NumberFormatOptions → ℚ → Str
  numToString : ℚ → Str

/-- JS `String(argValue)`. -/
def argToStr (env : IntlEnv) : Arg → Str
  | .str s => s
  | .num q => env.numToString q

/-- The message of `new Error("Invalid argument type")`. -/
def invalidArgMsg : Str := "Invalid argument type".toList

/-- The message of `new Error("Plural options must be defined")`. -/
def pluralMustMsg : Str := "Plural options must be defined".toList

/-- The type tag `plural` compared against by the `switch`. -/
def pluralLit : Str := "plural".toList

/-- One iteration of `performSubstitution`'s reduce: process the
argument `(argName, argValue)` against the current partially substituted
`result` string. -/
def substStep (env : IntlEnv) (locale : Str) (paramOptions : Option ParamOptions)
    (result argName : Str) (argValue : Arg) : Except Str Str :=
  let m := findMatch result argName
  let replaceKey := match m with
    | some (k, _) => k
    | none => lbrace :: argName ++ [rbrace]
  let argType := match m with
    | some (_, t) => t
    | none => none
  if argType = some pluralLit then
    match argValue with
    | .str _ => .error invalidArgMsg
    | .num n =>
      match pluralOptionsFor paramOptions argName with
      | none => .error pluralMustMsg
      | some po =>
        let cat := env.pluralSelect locale po.type n
        let replacement := (po.get? cat).getD po.other
        let formatted := env.formatNumber locale po.formatter n
        .ok (replaceFirst result replaceKey (replaceQAll formatted replacement))
  else
    .ok (replaceFirst result replaceKey (argToStr env argValue))

/-- `performSubstitution(string, paramOptions, args, locale)`: the
`Object.entries(args).reduce(...)` over the argument list, with thrown
errors propagating as `Except.error`. -/
def performSubstitution (env : IntlEnv) (string : Str) (paramOptions : Option ParamOptions)
    (args : List (Str × Arg)) (locale : Str) : Except Str Str :=
  match args with
  | [] => .ok string
  | (argName, argValue) :: rest =>
    match substStep env locale paramOptions string argName argValue with
    | .error e => .error e
    | .ok r => performSubstitution env r paramOptions rest locale

/-- JS truthiness of a catalog node: only the empty bare string is falsy
(`dt` pairs are arrays and nested catalogs are objects, both truthy). -/
def entryFalsy : Entry → Bool
  | .str s => s.isEmpty
  | _ => false

/-- The segment-walking loop of `getProperty`: `rest` is the remaining
(unfiltered) split of the key, so `rest.isEmpty` is exactly the source's
`i === keys.length - 1` test.  Empty segments are skipped (`continue`);
a falsy node aborts; a string or `dt` pair must sit at the final
segment; a nested object continues the walk; running out of segments
(including on a final nested catalog) yields `none`. -/
def getPropGo : Catalog → List Str → Option (Str × Option ParamOptions)
  | _, [] => none
  | obj, k :: rest =>
    if k.isEmpty then getPropGo obj rest
    else
      match lookupAssoc obj k with
      | none => none
      | some e =>
        if entryFalsy e then none
        else
          match e with
          | .str s => if rest.isEmpty then some (s, none) else none
          | .pair s o => if rest.isEmpty then some (s, o) else none
          | .obj o2 => getPropGo o2 rest

/-- `getProperty(object, key)`: split the key on `.` and walk. -/
def getProperty (object : Catalog) (key : Str) : Option (Str × Option ParamOptions) :=
  getPropGo object (splitOnDot key)

/-- `getTranslation(object, key, args, locale)`: `Option.none` models the
source's `undefined` for a lookup miss; a substitution error propagates. -/
def getTranslation (env : IntlEnv) (object : Catalog) (key : Str)
    (args : List (Str × Arg)) (locale : Str) : Except Str (Option Str) :=
  match getProperty object key with
  | none => .ok none
  | some (tmpl, opts) =>
    match performSubstitution env tmpl opts args locale with
    | .error e => .error e
    | .ok s => .ok (some s)

/-- The locale loop of `t`: skip locales with no catalog, skip lookup
misses, and — because the source tests `if (!translation) continue` on a
string — also skip locales whose substituted message is the empty
string; return the key when the chain is exhausted. -/
def tGo (env : IntlEnv) (translations : List (Str × Catalog)) (key : Str)
    (args : List (Str × Arg)) : List Str → Except Str Str
  | [] => .ok key
  | locale :: rest =>
    match lookupAssoc translations locale with
    | none => tGo env translations key args rest
    | some cat =>
      match getTranslation env cat key args locale with
      | .error e => .error e
      | .ok none => tGo env translations key args rest
      | .ok (some s) => if s.isEmpty then tGo env translations key args rest else .ok s

/-- JS `locale.replace(regex, "")` with the regex `-?[^-]+$` (written
here without its surrounding slashes): drop the maximal trailing run
of non-`-` characters together with one preceding `-` if present; when
the string is empty or ends in `-` the regex does not match and the
string is returned unchanged. -/
def stripParent (s : Str) : Str :=
  let r := s.reverse
  let t := r.takeWhile (fun c => c != '-')
  if t.isEmpty then s
  else
    match r.drop t.length with
    | [] => []
    | c :: rest' => if c = '-' then rest'.reverse else (c :: rest').reverse

/-- Fuel-driven body of `getOrderedLocaleAndParentLocales`.  The source's
`while (parentLocale !== "")` loop strips repeatedly; each productive
strip shortens the string, so `length + 1` fuel reproduces it exactly.
When stripping makes no progress on a nonempty string (a tag ending in
`-`) the source loops forever; this model stops after pushing the stuck
tag once. -/
def localeChainGo : Nat → Str → List Str
  | 0, _ => []
  | fuel + 1, locale =>
    if locale.isEmpty then []
    else
      locale ::
        (if (stripParent locale).length < locale.length
         then localeChainGo fuel (stripParent locale)
         else [])

/-- `getOrderedLocaleAndParentLocales(locale)`. -/
def getOrderedLocaleAndParentLocales (locale : Str) : List Str :=
  localeChainGo (locale.length + 1) locale

/-- Fuel-driven first-occurrence deduplication, the iteration order of a
JS `Set` built from a list. -/
def insertOrderDedupGo : Nat → List Str → List Str
  | 0, _ => []
  | _ + 1, [] => []
  | fuel + 1, x :: xs => x :: insertOrderDedupGo fuel (xs.filter (fun y => y != x))

/-- `new Set([...])` iterated in insertion order: keep the first
occurrence of each element. -/
def insertOrderDedup (l : List Str) : List Str :=
  insertOrderDedupGo l.length l

/-- `locale.toLowerCase()` (ASCII-faithful). -/
def lowerStr (s : Str) : Str := s.map Char.toLower

/-- The spread `[...expansion(primary), ...fallbacks.flatMap(expansion)]`
passed to the `Set` constructor in `initI18n`. -/
def chainConcat (primary : Str) (fallback : List Str) : List Str :=
  getOrderedLocaleAndParentLocales (lowerStr primary) ++
    fallback.flatMap (fun l => getOrderedLocaleAndParentLocales (lowerStr l))

/-- The `orderedLocales` set of `initI18n`: the primary locale's
expansion, then each fallback's expansion in order, deduplicated keeping
first occurrences. -/
def localeChain (primary : Str) (fallback : List Str) : List Str :=
  insertOrderDedup (chainConcat primary fallback)

/-- The `InitI18nConfig` object.  The source also accepts a single
fallback locale, which it wraps into a one-element array; the array form
is modelled. -/
structure I18nConfig where
  locale : Str
  translations : List (Str × Catalog)
  fallback : List Str

/-- The `t` closure returned by `initI18n(config)`. -/
def initI18n (env : IntlEnv) (config : I18nConfig) (key : Str)
    (args : List (Str × Arg)) : Except Str Str :=
  tGo env config.translations key args (localeChain config.locale config.fallback)

/-- Digits after the decimal point of `rem / den`, with fuel. -/
def fracDigits : Nat → Nat → Nat → Str
  | _, _, 0 => []
  | rem, den, fuel + 1 =>
    if rem = 0 then []
    else Char.ofNat (48 + rem * 10 / den) :: fracDigits (rem * 10 % den) den fuel

/-- A simple exact decimal rendering of a rational (up to 20 fractional
digits), used as the concrete `String(n)` of the witness environment. -/
def numToStr (q : ℚ) : Str :=
  (if q < 0 then ['-'] else []) ++
    Nat.toDigits 10 (q.num.natAbs / q.den) ++
    (let f := fracDigits (q.num.natAbs % q.den) q.den 20
     if f.isEmpty then [] else '.' :: f)

/-- A concrete environment used by witnesses: an English-like cardinal
rule (`1` is `one`, everything else `other`) and plain decimal
formatting. -/
def envEn : IntlEnv :=
  { pluralSelect := fun _ _ q => if q = 1 then .one else .other
    formatNumber := fun _ _ q => numToStr q
    numToString := numToStr }

/-- `pat` occurs as a contiguous substring of `s`. -/
def occursIn (pat : Str) : Str → Bool
  | [] => pat.isEmpty
  | c :: cs => begins pat (c :: cs) || occursIn pat cs

/-- The ECMAScript regex syntax characters (plus the braces and
brackets, which can change a dynamically built pattern's shape): a
character outside this list matches itself literally and introduces no
structure wherever it appears in a pattern. -/
def regexMetaChars : Str :=
  [Char.ofNat 92, '^', '$', '.', '|', '?', '*', '+', '(', ')', '[', ']', lbrace, rbrace]

/-- The argument name contains no regex metacharacter.  For such names
the source's dynamically built pattern `{name(?::([^}]+))?}` denotes
exactly the literal placeholder that `matchAt`/`findMatch` scan for,
and the `new RegExp` construction cannot throw a SyntaxError.  Theorems
that assume anything about a match carry this as a hypothesis, because
for other names the real pattern diverges from the structural scan. -/
def regexSafeName (name : Str) : Bool :=
  name.all (fun c => !(regexMetaChars.contains c))

/-- The string contains no `$`.  GetSubstitution (the `$`-expansion JS
`replace`/`replaceAll` apply to replacement text) is the identity on
such strings, so `replaceFirst`/`replaceQAll` are exact for them. -/
def dollarFree (s : Str) : Bool :=
  s.all (fun c => c != '$')

/-- The locale yields no catalog hit for `key`: either `translations`
has no catalog for it, or `getProperty` misses. -/
def localeMisses (translations : List (Str × Catalog)) (key locale : Str) : Bool :=
  match lookupAssoc translations locale with
  | none => true
  | some cat => (getProperty cat key).isNone

/-- The `t` loop moves past this locale without returning: no catalog,
a lookup miss, or a substitution that succeeds with the empty string. -/
def localeSkipped (env : IntlEnv) (translations : List (Str × Catalog)) (key : Str)
    (args : List (Str × Arg)) (locale : Str) : Bool :=
  match lookupAssoc translations locale with
  | none => true
  | some cat =>
    match getProperty cat key with
    | none => true
    | some (tmpl, opts) =>
      match performSubstitution env tmpl opts args locale with
      | .ok s => s.isEmpty
      | .error _ => false

/-- The English `plural` rule set of the repository's test fixture
(`test/en.ts`): `{one: "1 message", other: "{?} messages"}`. -/
def poMsgs : PluralOptions :=
  { zero := none, one := some "1 message".toList, two := none, few := none, many := none
    other := "{?} messages".toList, type := none, formatter := none }

/-- The `ParamOptions` of the fixture's `plural` entry. -/
def optsMsgs : ParamOptions :=
  { plural := some [("messages".toList, poMsgs)], number := none, date := none }

/-- The `ParamOptions` of the fixture's `number` entry:
`{number: {price: {style: "currency", currency: "USD"}}}`. -/
def optsUSD : ParamOptions :=
  { plural := none
    number := some [("price".toList,
      { style := some "currency".toList, currency := some "USD".toList })]
    date := none }

/-- A two-locale configuration exercising fallback: the English catalog
maps `greet` to the template `{name}`, the Spanish one to `x`. -/
def cfgEx : I18nConfig :=
  { locale := "en".toList
    translations :=
      [("en".toList, [("greet".toList, Entry.str "{name}".toList)]),
       ("es".toList, [("greet".toList, Entry.str "x".toList)])]
    fallback := ["es".toList] }

theorem begins_iff (p : Str) : ∀ s, begins p s = true ↔ ∃ t, s = p ++ t := by
  induction p with
  | nil => intro s; simp [begins]
  | cons a ps ih =>
    intro s
    cases s with
    | nil => simp [begins]
    | cons c cs =>
      simp only [begins, Bool.and_eq_true, beq_iff_eq, ih, List.cons_append,
        List.cons.injEq]
      constructor
      · rintro ⟨rfl, t, rfl⟩; exact ⟨t, rfl, rfl⟩
      · rintro ⟨t, rfl, rfl⟩; exact ⟨rfl, t, rfl⟩

theorem begins_append {p s : Str} (t : Str) (h : begins p s = true) :
    begins p (s ++ t) = true := by
  rcases (begins_iff p s).1 h with ⟨u, rfl⟩
  exact (begins_iff p _).2 ⟨u ++ t, by simp⟩

theorem begins_decomp {p s : Str} (h : begins p s = true) :
    s = p ++ s.drop p.length := by
  rcases (begins_iff p s).1 h with ⟨u, rfl⟩
  simp

theorem begins_nil_right (a : Char) (ps : Str) : begins (a :: ps) [] = false := rfl

theorem replaceFirst_not_occurs {pat : Str} (r : Str) :
    ∀ s, occursIn pat s = false → replaceFirst s pat r = s := by
  intro s
  induction s with
  | nil =>
    intro h
    unfold occursIn at h
    unfold replaceFirst
    cases pat with
    | nil => simp at h
    | cons a ps => simp [begins_nil_right]
  | cons c cs ih =>
    intro h
    unfold occursIn at h
    rw [Bool.or_eq_false_iff] at h
    unfold replaceFirst
    rw [if_neg (by simp [h.1])]
    show c :: replaceFirst cs pat r = c :: cs
    rw [ih h.2]

theorem replaceFirst_split {pat : Str} (hpat : pat ≠ []) :
    ∀ s, occursIn pat s = true →
      ∃ a b, s = a ++ pat ++ b ∧ occursIn pat a = false ∧
        ∀ r, replaceFirst s pat r = a ++ r ++ b := by
  intro s
  induction s with
  | nil =>
    intro h
    unfold occursIn at h
    rw [List.isEmpty_iff] at h
    exact absurd h hpat
  | cons c cs ih =>
    intro h
    by_cases hb : begins pat (c :: cs) = true
    · refine ⟨[], (c :: cs).drop pat.length, by simpa using begins_decomp hb, ?_, ?_⟩
      · unfold occursIn
        simpa [List.isEmpty_iff] using hpat
      · intro r
        unfold replaceFirst
        rw [if_pos hb]
        simp
    · have h' : occursIn pat cs = true := by
        unfold occursIn at h
        simp only [Bool.or_eq_true] at h
        rcases h with h1 | h2
        · exact absurd h1 hb
        · exact h2
      rcases ih h' with ⟨a, b, he, hna, hrw⟩
      refine ⟨c :: a, b, by simp [he], ?_, ?_⟩
      · unfold occursIn
        rw [Bool.or_eq_false_iff]
        refine ⟨?_, hna⟩
        by_contra hba
        rw [Bool.not_eq_false] at hba
        have : begins pat (c :: cs) = true := by
          have := begins_append (pat ++ b) hba
          rw [show (c :: a) ++ (pat ++ b) = c :: cs by simp [he]] at this
          exact this
        exact hb this
      · intro r
        unfold replaceFirst
        rw [if_neg hb]
        show c :: replaceFirst cs pat r = c :: (a ++ r ++ b)
        rw [hrw r]

theorem matchAt_none_begins {name s : Str} (h : matchAt name s = none) :
    begins (lbrace :: name ++ [rbrace]) s = false := by
  by_contra hb
  rw [Bool.not_eq_false] at hb
  unfold matchAt at h
  rw [if_pos hb] at h
  cases h

theorem matchAt_untyped {name s k : Str} (h : matchAt name s = some (k, none)) :
    k = lbrace :: name ++ [rbrace] ∧ begins (lbrace :: name ++ [rbrace]) s = true := by
  simp only [matchAt] at h
  split at h
  · rename_i hc
    injection h with h'
    injection h' with hk _
    exact ⟨hk.symm, hc⟩
  · split at h
    · split at h
      · cases h
      · split at h
        · injection h with h'
          injection h' with _ ht
          cases ht
        · cases h
    · cases h

theorem matchAt_nil (name : Str) : matchAt name [] = none := by
  unfold matchAt
  rw [if_neg (by simp [begins_nil_right]), if_neg (by simp [begins_nil_right])]

theorem findMatch_none_occurs {name : Str} :
    ∀ s, findMatch s name = none → occursIn (lbrace :: name ++ [rbrace]) s = false := by
  intro s
  induction s with
  | nil => intro _; rfl
  | cons c cs ih =>
    intro h
    rw [findMatch] at h
    cases hm : matchAt name (c :: cs) with
    | some r => rw [hm] at h; cases h
    | none =>
      rw [hm] at h
      unfold occursIn
      rw [Bool.or_eq_false_iff]
      exact ⟨matchAt_none_begins hm, ih h⟩

theorem findMatch_untyped_occurs {name : Str} :
    ∀ s k, findMatch s name = some (k, none) →
      k = lbrace :: name ++ [rbrace] ∧ occursIn (lbrace :: name ++ [rbrace]) s = true := by
  intro s
  induction s with
  | nil =>
    intro k h
    rw [findMatch, matchAt_nil] at h
    cases h
  | cons c cs ih =>
    intro k h
    rw [findMatch] at h
    cases hm : matchAt name (c :: cs) with
    | some r =>
      rw [hm] at h
      injection h with h'
      subst h'
      rcases matchAt_untyped hm with ⟨hk, hb⟩
      refine ⟨hk, ?_⟩
      unfold occursIn
      rw [hb]
      rfl
    | none =>
      rw [hm] at h
      rcases ih k h with ⟨hk, ho⟩
      refine ⟨hk, ?_⟩
      unfold occursIn
      rw [ho]
      simp

theorem findMatch_no_lbrace {name : Str} :
    ∀ s, lbrace ∉ s → findMatch s name = none := by
  intro s
  induction s with
  | nil =>
    intro _
    rw [findMatch, matchAt_nil]
  | cons c cs ih =>
    intro h
    have hc : c ≠ lbrace := fun he => h (he ▸ List.mem_cons_self c cs)
    have hm : matchAt name (c :: cs) = none := by
      unfold matchAt
      rw [if_neg, if_neg]
      · show ¬ begins (lbrace :: name ++ [':']) (c :: cs) = true
        unfold begins
        simp [Ne.symm hc]
      · show ¬ begins (lbrace :: name ++ [rbrace]) (c :: cs) = true
        unfold begins
        simp [Ne.symm hc]
    rw [findMatch, hm]
    exact ih (fun hmem => h (List.mem_cons_of_mem c hmem))

theorem substStep_no_match {env : IntlEnv} {loc : Str} {opts : Option ParamOptions}
    {tmpl name : Str} (v : Arg) (h : findMatch tmpl name = none) :
    substStep env loc opts tmpl name v = .ok tmpl := by
  unfold substStep
  rw [h]
  show (if (none : Option Str) = some pluralLit then _ else _) = _
  rw [if_neg (by simp)]
  rw [replaceFirst_not_occurs _ _ (findMatch_none_occurs _ h)]

theorem substStep_untyped {env : IntlEnv} {loc : Str} {opts : Option ParamOptions}
    {tmpl name k : Str} (v : Arg) (h : findMatch tmpl name = some (k, none)) :
    substStep env loc opts tmpl name v = .ok (replaceFirst tmpl k (argToStr env v)) := by
  unfold substStep
  rw [h]
  show (if (none : Option Str) = some pluralLit then _ else _) = _
  rw [if_neg (by simp)]

theorem substStep_nonplural_typed {env : IntlEnv} {loc : Str} {opts : Option ParamOptions}
    {tmpl name k ty : Str} (v : Arg) (h : findMatch tmpl name = some (k, some ty))
    (hty : ty ≠ pluralLit) :
    substStep env loc opts tmpl name v = .ok (replaceFirst tmpl k (argToStr env v)) := by
  unfold substStep
  rw [h]
  show (if some ty = some pluralLit then _ else _) = _
  rw [if_neg (by simp [hty])]

theorem substStep_plural_ok {env : IntlEnv} {loc : Str} {opts : Option ParamOptions}
    {tmpl name k : Str} {po : PluralOptions} (n : ℚ)
    (h : findMatch tmpl name = some (k, some pluralLit))
    (hpo : pluralOptionsFor opts name = some po) :
    substStep env loc opts tmpl name (Arg.num n) =
      .ok (replaceFirst tmpl k
        (replaceQAll (env.formatNumber loc po.formatter n)
          ((po.get? (env.pluralSelect loc po.type n)).getD po.other))) := by
  unfold substStep
  rw [h]
  show (if some pluralLit = some pluralLit then _ else _) = _
  rw [if_pos rfl]
  show (match pluralOptionsFor opts name with
        | none => _
        | some po => _) = _
  rw [hpo]

theorem substStep_plural_badkind {env : IntlEnv} {loc : Str} {opts : Option ParamOptions}
    {tmpl name k : Str} (v : Str)
    (h : findMatch tmpl name = some (k, some pluralLit)) :
    substStep env loc opts tmpl name (Arg.str v) = .error invalidArgMsg := by
  unfold substStep
  rw [h]
  show (if some pluralLit = some pluralLit then _ else _) = _
  rw [if_pos rfl]

theorem substStep_plural_noconfig {env : IntlEnv} {loc : Str} {opts : Option ParamOptions}
    {tmpl name k : Str} (n : ℚ)
    (h : findMatch tmpl name = some (k, some pluralLit))
    (hpo : pluralOptionsFor opts name = none) :
    substStep env loc opts tmpl name (Arg.num n) = .error pluralMustMsg := by
  unfold substStep
  rw [h]
  show (if some pluralLit = some pluralLit then _ else _) = _
  rw [if_pos rfl]
  show (match pluralOptionsFor opts name with
        | none => _
        | some po => _) = _
  rw [hpo]

theorem substStep_error_msg {env : IntlEnv} {loc : Str} {opts : Option ParamOptions}
    {tmpl name : Str} {v : Arg} {e : Str}
    (h : substStep env loc opts tmpl name v = .error e) :
    e = invalidArgMsg ∨ e = pluralMustMsg := by
  cases hm : findMatch tmpl name with
  | none =>
    rw [substStep_no_match v hm] at h
    exact Except.noConfusion h
  | some r =>
    rcases r with ⟨k, ty⟩
    cases ty with
    | none =>
      rw [substStep_untyped v hm] at h
      exact Except.noConfusion h
    | some t =>
      by_cases ht : t = pluralLit
      · subst ht
        cases v with
        | str s =>
          rw [substStep_plural_badkind s hm] at h
          injection h with h'
          exact Or.inl h'.symm
        | num n =>
          cases hpo : pluralOptionsFor opts name with
          | none =>
            rw [substStep_plural_noconfig n hm hpo] at h
            injection h with h'
            exact Or.inr h'.symm
          | some po =>
            rw [substStep_plural_ok n hm hpo] at h
            exact Except.noConfusion h
      · rw [substStep_nonplural_typed v hm ht] at h
        exact Except.noConfusion h

theorem performSubstitution_error_msg {env : IntlEnv} {loc : Str} {opts : Option ParamOptions}
    {e : Str} :
    ∀ (args : List (Str × Arg)) (tmpl : Str),
      performSubstitution env tmpl opts args loc = .error e →
      e = invalidArgMsg ∨ e = pluralMustMsg := by
  intro args
  induction args with
  | nil =>
    intro tmpl h
    exact Except.noConfusion h
  | cons pr rest ih =>
    intro tmpl h
    rw [performSubstitution] at h
    rcases pr with ⟨argName, argValue⟩
    cases hs : substStep env loc opts tmpl argName argValue with
    | error e' =>
      rw [hs] at h
      injection h with h'
      exact h'.symm ▸ substStep_error_msg hs
    | ok r =>
      rw [hs] at h
      exact ih r h

theorem performSubstitution_no_matches {env : IntlEnv} {loc : Str} {opts : Option ParamOptions} :
    ∀ (args : List (Str × Arg)) (tmpl : Str),
      (∀ pr ∈ args, findMatch tmpl pr.1 = none) →
      performSubstitution env tmpl opts args loc = .ok tmpl := by
  intro args
  induction args with
  | nil => intro tmpl _; rfl
  | cons pr rest ih =>
    intro tmpl h
    rw [performSubstitution]
    rcases pr with ⟨argName, argValue⟩
    rw [substStep_no_match argValue (h _ (List.mem_cons_self _ _))]
    exact ih tmpl (fun q hq => h q (List.mem_cons_of_mem _ hq))

theorem performSubstitution_single_untyped {env : IntlEnv} {loc : Str}
    {opts : Option ParamOptions} {tmpl name k : Str} (v : Arg)
    (h : findMatch tmpl name = some (k, none)) :
    performSubstitution env tmpl opts [(name, v)] loc =
      .ok (replaceFirst tmpl k (argToStr env v)) := by
  rw [performSubstitution, substStep_untyped v h]
  rfl

theorem performSubstitution_single_plural {env : IntlEnv} {loc : Str}
    {opts : Option ParamOptions} {tmpl name k : Str} {po : PluralOptions} (n : ℚ)
    (h : findMatch tmpl name = some (k, some pluralLit))
    (hpo : pluralOptionsFor opts name = some po) :
    performSubstitution env tmpl opts [(name, Arg.num n)] loc =
      .ok (replaceFirst tmpl k
        (replaceQAll (env.formatNumber loc po.formatter n)
          ((po.get? (env.pluralSelect loc po.type n)).getD po.other))) := by
  rw [performSubstitution, substStep_plural_ok n h hpo]
  rfl

theorem replaceQAll_cons3 (r : Str) (c₁ c₂ c₃ : Char) (rest : Str) :
    replaceQAll r (c₁ :: c₂ :: c₃ :: rest) =
      if c₁ = lbrace ∧ c₂ = '?' ∧ c₃ = rbrace then r ++ replaceQAll r rest
      else c₁ :: replaceQAll r (c₂ :: c₃ :: rest) := rfl

theorem lbrace_ne_q : lbrace ≠ '?' := by decide

theorem lbrace_ne_rbrace : lbrace ≠ rbrace := by decide

theorem replaceQAll_append (r v : Str) :
    ∀ u, hasQ u = false →
      replaceQAll r (u ++ qpat ++ v) = u ++ r ++ replaceQAll r v := by
  intro u
  induction u with
  | nil =>
    intro _
    show replaceQAll r (lbrace :: '?' :: rbrace :: v) = r ++ replaceQAll r v
    rw [replaceQAll_cons3, if_pos ⟨rfl, rfl, rfl⟩]
  | cons c u' ih =>
    intro h
    unfold hasQ at h
    rw [Bool.or_eq_false_iff] at h
    have hq := ih h.2
    cases u' with
    | nil =>
      show replaceQAll r (c :: lbrace :: '?' :: rbrace :: v) = c :: (r ++ replaceQAll r v)
      rw [replaceQAll_cons3, if_neg (by rintro ⟨-, he, -⟩; exact lbrace_ne_q he)]
      have : replaceQAll r (lbrace :: '?' :: rbrace :: v) = r ++ replaceQAll r v := by
        simpa using hq
      rw [this]
    | cons d u2 =>
      cases u2 with
      | nil =>
        show replaceQAll r (c :: d :: lbrace :: '?' :: rbrace :: v) =
          c :: d :: (r ++ replaceQAll r v)
        rw [replaceQAll_cons3, if_neg (by rintro ⟨-, -, he⟩; exact lbrace_ne_rbrace he)]
        have : replaceQAll r (d :: lbrace :: '?' :: rbrace :: v) =
            d :: (r ++ replaceQAll r v) := by
          simpa using hq
        rw [this]
      | cons e u3 =>
        have hb : ¬ (c = lbrace ∧ d = '?' ∧ e = rbrace) := by
          rintro ⟨rfl, rfl, rfl⟩
          simp [begins, qpat] at h
        show replaceQAll r (c :: d :: e :: (u3 ++ qpat ++ v)) =
          c :: ((d :: e :: u3) ++ r ++ replaceQAll r v)
        rw [replaceQAll_cons3, if_neg hb]
        have : replaceQAll r (d :: e :: (u3 ++ qpat ++ v)) =
            (d :: e :: u3) ++ r ++ replaceQAll r v := by
          simpa using hq
        rw [this]

theorem mem_replaceQAll :
    ∀ (r s : Str) (c : Char), c ∈ replaceQAll r s → c ∈ r ∨ c ∈ s
  | r, [], c, h => by simp [replaceQAll] at h
  | r, [a], c, h => Or.inr (by simpa [replaceQAll] using h)
  | r, [a, b], c, h => Or.inr (by simpa [replaceQAll] using h)
  | r, c₁ :: c₂ :: c₃ :: rest, c, h => by
    rw [replaceQAll_cons3] at h
    by_cases hcond : c₁ = lbrace ∧ c₂ = '?' ∧ c₃ = rbrace
    · rw [if_pos hcond] at h
      rcases List.mem_append.mp h with hr | hq
      · exact Or.inl hr
      · rcases mem_replaceQAll r rest c hq with hr | hs
        · exact Or.inl hr
        · exact Or.inr (by simp [hs])
    · rw [if_neg hcond] at h
      rcases List.mem_cons.mp h with rfl | hq
      · exact Or.inr (List.mem_cons_self _ _)
      · rcases mem_replaceQAll r (c₂ :: c₃ :: rest) c hq with hr | hs
        · exact Or.inl hr
        · exact Or.inr (List.mem_cons_of_mem _ hs)

theorem dollarFree_replaceQAll {r s : Str} (hr : dollarFree r = true)
    (hs : dollarFree s = true) : dollarFree (replaceQAll r s) = true := by
  unfold dollarFree at hr hs ⊢
  rw [List.all_eq_true] at hr hs ⊢
  intro c hc
  rcases mem_replaceQAll r s c hc with h | h
  · exact hr c h
  · exact hs c h

theorem dedupGo_cons (fuel : Nat) (x : Str) (xs : List Str) :
    insertOrderDedupGo (fuel + 1) (x :: xs) =
      x :: insertOrderDedupGo fuel (xs.filter (fun y => y != x)) := rfl

theorem mem_dedupGo :
    ∀ (fuel : Nat) (l : List Str) (x : Str), l.length ≤ fuel →
      (x ∈ insertOrderDedupGo fuel l ↔ x ∈ l) := by
  intro fuel
  induction fuel with
  | zero =>
    intro l x h
    rw [List.eq_nil_of_length_eq_zero (Nat.le_zero.mp h)]
    simp [insertOrderDedupGo]
  | succ f ih =>
    intro l x h
    cases l with
    | nil => simp [insertOrderDedupGo]
    | cons a as =>
      rw [dedupGo_cons]
      have hlen : (as.filter (fun y => y != a)).length ≤ f :=
        le_trans (List.length_filter_le _ _) (Nat.succ_le_succ_iff.mp h)
      by_cases hx : x = a
      · subst hx; simp
      · simp only [List.mem_cons, ih _ x hlen, List.mem_filter, bne_iff_ne]
        constructor
        · rintro (rfl | ⟨hm, -⟩)
          · exact Or.inl rfl
          · exact Or.inr hm
        · rintro (rfl | hm)
          · exact Or.inl rfl
          · exact Or.inr ⟨hm, hx⟩

theorem nodup_dedupGo :
    ∀ (fuel : Nat) (l : List Str), l.length ≤ fuel →
      (insertOrderDedupGo fuel l).Nodup := by
  intro fuel
  induction fuel with
  | zero => intro l _; exact List.Pairwise.nil
  | succ f ih =>
    intro l h
    cases l with
    | nil => exact List.Pairwise.nil
    | cons a as =>
      rw [dedupGo_cons]
      have hlen : (as.filter (fun y => y != a)).length ≤ f :=
        le_trans (List.length_filter_le _ _) (Nat.succ_le_succ_iff.mp h)
      refine List.Nodup.cons ?_ (ih _ hlen)
      intro hmem
      have := (mem_dedupGo f _ a hlen).mp hmem
      rcases List.mem_filter.mp this with ⟨-, hne⟩
      exact absurd rfl (bne_iff_ne.mp hne)

theorem firstIdx_cons_self (x : Str) (l : List Str) : firstIdx x (x :: l) = 0 := by
  show (if x = x then 0 else firstIdx x l + 1) = 0
  rw [if_pos rfl]

theorem firstIdx_cons_ne {x y : Str} (l : List Str) (h : y ≠ x) :
    firstIdx x (y :: l) = firstIdx x l + 1 := by
  show (if y = x then 0 else firstIdx x l + 1) = firstIdx x l + 1
  rw [if_neg h]

theorem firstIdx_filter_lt (p : Str → Bool) :
    ∀ (l : List Str) (a b : Str), a ∈ l.filter p → b ∈ l.filter p →
      firstIdx a (l.filter p) < firstIdx b (l.filter p) → firstIdx a l < firstIdx b l := by
  intro l
  induction l with
  | nil => intro a b ha _ _; simp at ha
  | cons c cs ih =>
    intro a b ha hb hlt
    by_cases hpc : p c = true
    · rw [List.filter_cons_of_pos hpc] at ha hb hlt
      by_cases hac : a = c
      · subst hac
        have hbc : b ≠ a := by
          rintro rfl
          rw [firstIdx_cons_self] at hlt
          exact Nat.not_lt_zero _ hlt
        rw [firstIdx_cons_self]
        have : b ∈ cs := by
          rcases List.mem_cons.mp hb with rfl | hm
          · exact absurd rfl hbc
          · exact (List.mem_filter.mp hm).1
        rw [firstIdx_cons_ne _ (fun he => hbc he.symm)]
        exact Nat.succ_pos _
      · by_cases hbc : b = c
        · subst hbc
          rw [firstIdx_cons_self, firstIdx_cons_ne _ (fun he => hac he.symm)] at hlt
          exact absurd hlt (Nat.not_lt_zero _)
        · have ha' : a ∈ cs.filter p := by
            rcases List.mem_cons.mp ha with rfl | hm
            · exact absurd rfl hac
            · exact hm
          have hb' : b ∈ cs.filter p := by
            rcases List.mem_cons.mp hb with rfl | hm
            · exact absurd rfl hbc
            · exact hm
          rw [firstIdx_cons_ne _ (fun he => hac he.symm),
            firstIdx_cons_ne _ (fun he => hbc he.symm)] at hlt
          rw [firstIdx_cons_ne _ (fun he => hac he.symm),
            firstIdx_cons_ne _ (fun he => hbc he.symm)]
          exact Nat.succ_lt_succ (ih a b ha' hb' (Nat.lt_of_succ_lt_succ hlt))
    · rw [List.filter_cons_of_neg (by simpa using hpc)] at ha hb hlt
      have hac : a ≠ c := by
        rintro rfl
        exact hpc (List.mem_filter.mp ha).2
      have hbc : b ≠ c := by
        rintro rfl
        exact hpc (List.mem_filter.mp hb).2
      rw [firstIdx_cons_ne _ (fun he => hac he.symm),
        firstIdx_cons_ne _ (fun he => hbc he.symm)]
      exact Nat.succ_lt_succ (ih a b ha hb hlt)

theorem pairwise_firstIdx_dedupGo :
    ∀ (fuel : Nat) (l : List Str), l.length ≤ fuel →
      (insertOrderDedupGo fuel l).Pairwise (fun a b => firstIdx a l < firstIdx b l) := by
  intro fuel
  induction fuel with
  | zero => intro l _; exact List.Pairwise.nil
  | succ f ih =>
    intro l h
    cases l with
    | nil => exact List.Pairwise.nil
    | cons a as =>
      rw [dedupGo_cons]
      have hlen : (as.filter (fun y => y != a)).length ≤ f :=
        le_trans (List.length_filter_le _ _) (Nat.succ_le_succ_iff.mp h)
      refine List.Pairwise.cons ?_ ?_
      · intro b hb
        have hbf := (mem_dedupGo f _ b hlen).mp hb
        rcases List.mem_filter.mp hbf with ⟨hbm, hbne⟩
        rw [firstIdx_cons_self, firstIdx_cons_ne _ (fun he => bne_iff_ne.mp hbne he.symm)]
        exact Nat.succ_pos _
      · have hpair := ih _ hlen
        refine hpair.imp_of_mem ?_
        intro x y hx hy hxy
        have hxf := (mem_dedupGo f _ x hlen).mp hx
        have hyf := (mem_dedupGo f _ y hlen).mp hy
        have hxa : x ≠ a := bne_iff_ne.mp (List.mem_filter.mp hxf).2
        have hya : y ≠ a := bne_iff_ne.mp (List.mem_filter.mp hyf).2
        have hlt := firstIdx_filter_lt _ as x y hxf hyf hxy
        rw [firstIdx_cons_ne _ (fun he => hxa he.symm),
          firstIdx_cons_ne _ (fun he => hya he.symm)]
        exact Nat.succ_lt_succ hlt

theorem mem_localeChainGo_length :
    ∀ (fuel : Nat) (l a : Str), a ∈ localeChainGo fuel l → a.length ≤ l.length := by
  intro fuel
  induction fuel with
  | zero => intro l a ha; simp [localeChainGo] at ha
  | succ f ih =>
    intro l a ha
    unfold localeChainGo at ha
    by_cases he : l.isEmpty = true
    · rw [if_pos he] at ha; simp at ha
    · rw [if_neg he] at ha
      rcases List.mem_cons.mp ha with rfl | hm
      · exact Nat.le_refl _
      · by_cases hlt : (stripParent l).length < l.length
        · rw [if_pos hlt] at hm
          exact Nat.le_of_lt (Nat.lt_of_le_of_lt (ih _ a hm) hlt)
        · rw [if_neg hlt] at hm; simp at hm

theorem expansion_head {l : Str} (h : ¬ l.isEmpty = true) :
    ∃ t, getOrderedLocaleAndParentLocales l = l :: t ∧ ∀ a ∈ t, a.length < l.length := by
  unfold getOrderedLocaleAndParentLocales localeChainGo
  rw [if_neg h]
  refine ⟨_, rfl, ?_⟩
  intro a ha
  by_cases hlt : (stripParent l).length < l.length
  · rw [if_pos hlt] at ha
    exact Nat.lt_of_le_of_lt (mem_localeChainGo_length _ _ a ha) hlt
  · rw [if_neg hlt] at ha; simp at ha

theorem expansion_nil : getOrderedLocaleAndParentLocales [] = [] := rfl

theorem getTranslation_miss {env : IntlEnv} {object : Catalog} {key : Str}
    {args : List (Str × Arg)} {locale : Str} (h : getProperty object key = none) :
    getTranslation env object key args locale = .ok none := by
  rw [getTranslation, h]

theorem getTranslation_hit {env : IntlEnv} {object : Catalog} {key : Str}
    {args : List (Str × Arg)} {locale : Str} {tmpl : Str} {opts : Option ParamOptions}
    {s : Str} (h : getProperty object key = some (tmpl, opts))
    (h2 : performSubstitution env tmpl opts args locale = .ok s) :
    getTranslation env object key args locale = .ok (some s) := by
  rw [getTranslation, h]
  show (match performSubstitution env tmpl opts args locale with
        | Except.error e => Except.error e
        | Except.ok s => Except.ok (some s)) = Except.ok (some s)
  rw [h2]

theorem tGo_cons_noCat {env : IntlEnv} {translations : List (Str × Catalog)}
    {key : Str} {args : List (Str × Arg)} {l : Str} {rest : List Str}
    (hc : lookupAssoc translations l = none) :
    tGo env translations key args (l :: rest) = tGo env translations key args rest := by
  rw [tGo, hc]

theorem tGo_cons_skip {env : IntlEnv} {translations : List (Str × Catalog)}
    {key : Str} {args : List (Str × Arg)} {l : Str} {rest : List Str} {cat : Catalog}
    (hc : lookupAssoc translations l = some cat)
    (hgt : getTranslation env cat key args l = .ok none) :
    tGo env translations key args (l :: rest) = tGo env translations key args rest := by
  rw [tGo, hc]
  show (match getTranslation env cat key args l with
        | Except.error e => Except.error e
        | Except.ok none => tGo env translations key args rest
        | Except.ok (some s) =>
          if s.isEmpty = true then tGo env translations key args rest
          else Except.ok s) = tGo env translations key args rest
  rw [hgt]

theorem tGo_cons_emptyHit {env : IntlEnv} {translations : List (Str × Catalog)}
    {key : Str} {args : List (Str × Arg)} {l : Str} {rest : List Str} {cat : Catalog}
    {s : Str} (hc : lookupAssoc translations l = some cat)
    (hgt : getTranslation env cat key args l = .ok (some s)) (hs : s.isEmpty = true) :
    tGo env translations key args (l :: rest) = tGo env translations key args rest := by
  rw [tGo, hc]
  show (match getTranslation env cat key args l with
        | Except.error e => Except.error e
        | Except.ok none => tGo env translations key args rest
        | Except.ok (some s) =>
          if s.isEmpty = true then tGo env translations key args rest
          else Except.ok s) = tGo env translations key args rest
  rw [hgt]
  show (if s.isEmpty = true then tGo env translations key args rest else Except.ok s) =
    tGo env translations key args rest
  rw [if_pos hs]

theorem tGo_cons_hit {env : IntlEnv} {translations : List (Str × Catalog)}
    {key : Str} {args : List (Str × Arg)} {l : Str} {rest : List Str} {cat : Catalog}
    {s : Str} (hc : lookupAssoc translations l = some cat)
    (hgt : getTranslation env cat key args l = .ok (some s)) (hs : s.isEmpty = false) :
    tGo env translations key args (l :: rest) = .ok s := by
  rw [tGo, hc]
  show (match getTranslation env cat key args l with
        | Except.error e => Except.error e
        | Except.ok none => tGo env translations key args rest
        | Except.ok (some s) =>
          if s.isEmpty = true then tGo env translations key args rest
          else Except.ok s) = Except.ok s
  rw [hgt]
  show (if s.isEmpty = true then tGo env translations key args rest else Except.ok s) =
    Except.ok s
  rw [if_neg (by rw [hs]; exact Bool.false_ne_true)]

theorem tGo_cons_err {env : IntlEnv} {translations : List (Str × Catalog)}
    {key : Str} {args : List (Str × Arg)} {l : Str} {rest : List Str} {cat : Catalog}
    {e : Str} (hc : lookupAssoc translations l = some cat)
    (hgt : getTranslation env cat key args l = .error e) :
    tGo env translations key args (l :: rest) = .error e := by
  rw [tGo, hc]
  show (match getTranslation env cat key args l with
        | Except.error e => Except.error e
        | Except.ok none => tGo env translations key args rest
        | Except.ok (some s) =>
          if s.isEmpty = true then tGo env translations key args rest
          else Except.ok s) = Except.error e
  rw [hgt]

theorem tGo_all_missed {env : IntlEnv} {translations : List (Str × Catalog)}
    {key : Str} {args : List (Str × Arg)} :
    ∀ chain, (∀ l ∈ chain, localeMisses translations key l = true) →
      tGo env translations key args chain = .ok key := by
  intro chain
  induction chain with
  | nil => intro _; rfl
  | cons l rest ih =>
    intro h
    have hl := h l (List.mem_cons_self _ _)
    have hrest := fun x hx => h x (List.mem_cons_of_mem _ hx)
    unfold localeMisses at hl
    cases hc : lookupAssoc translations l with
    | none => rw [tGo_cons_noCat hc]; exact ih hrest
    | some cat =>
      rw [hc] at hl
      replace hl : (getProperty cat key).isNone = true := hl
      have hgp : getProperty cat key = none := by
        cases hg : getProperty cat key with
        | none => rfl
        | some r => rw [hg] at hl; simp at hl
      rw [tGo_cons_skip hc (getTranslation_miss hgp)]
      exact ih hrest

theorem tGo_first_hit {env : IntlEnv} {translations : List (Str × Catalog)}
    {key : Str} {args : List (Str × Arg)} {loc : Str} {cat : Catalog}
    {tmpl : Str} {opts : Option ParamOptions} {s : Str} :
    ∀ pre, (∀ l ∈ pre, localeSkipped env translations key args l = true) →
      lookupAssoc translations loc = some cat →
      getProperty cat key = some (tmpl, opts) →
      performSubstitution env tmpl opts args loc = .ok s → s ≠ [] →
      ∀ post, tGo env translations key args (pre ++ loc :: post) = .ok s := by
  intro pre
  induction pre with
  | nil =>
    intro _ hc hg hp hs post
    rw [List.nil_append]
    refine tGo_cons_hit hc (getTranslation_hit hg hp) ?_
    cases s with
    | nil => exact absurd rfl hs
    | cons c cs => rfl
  | cons l pre' ih =>
    intro h hc hg hp hs post
    have hl := h l (List.mem_cons_self _ _)
    have hrest := fun x hx => h x (List.mem_cons_of_mem _ hx)
    rw [List.cons_append]
    unfold localeSkipped at hl
    cases hcl : lookupAssoc translations l with
    | none => rw [tGo_cons_noCat hcl]; exact ih hrest hc hg hp hs post
    | some cat' =>
      rw [hcl] at hl
      replace hl :
          (match getProperty cat' key with
           | none => true
           | some (tmpl, opts) =>
             match performSubstitution env tmpl opts args l with
             | .ok s => s.isEmpty
             | .error _ => false) = true := hl
      cases hgl : getProperty cat' key with
      | none =>
        rw [tGo_cons_skip hcl (getTranslation_miss hgl)]
        exact ih hrest hc hg hp hs post
      | some r =>
        rcases r with ⟨tmpl', opts'⟩
        rw [hgl] at hl
        replace hl :
            (match performSubstitution env tmpl' opts' args l with
             | .ok s => s.isEmpty
             | .error _ => false) = true := hl
        cases hpl : performSubstitution env tmpl' opts' args l with
        | error e => rw [hpl] at hl; cases hl
        | ok s' =>
          rw [hpl] at hl
          replace hl : s'.isEmpty = true := hl
          rw [tGo_cons_emptyHit hcl (getTranslation_hit hgl hpl) hl]
          exact ih hrest hc hg hp hs post

theorem tGo_ok_result {env : IntlEnv} {translations : List (Str × Catalog)}
    {key : Str} {args : List (Str × Arg)} :
    ∀ chain s, tGo env translations key args chain = .ok s → s = key ∨ s ≠ [] := by
  intro chain
  induction chain with
  | nil =>
    intro s h
    rw [tGo] at h
    injection h with h'
    exact Or.inl h'.symm
  | cons l rest ih =>
    intro s h
    cases hc : lookupAssoc translations l with
    | none =>
      rw [tGo_cons_noCat hc] at h
      exact ih s h
    | some cat =>
      cases hg : getTranslation env cat key args l with
      | error e =>
        rw [tGo_cons_err hc hg] at h
        exact Except.noConfusion h
      | ok r =>
        cases r with
        | none =>
          rw [tGo_cons_skip hc hg] at h
          exact ih s h
        | some s' =>
          cases he : s'.isEmpty with
          | true =>
            rw [tGo_cons_emptyHit hc hg he] at h
            exact ih s h
          | false =>
            rw [tGo_cons_hit hc hg he] at h
            injection h with h'
            subst h'
            refine Or.inr ?_
            cases s' with
            | nil => simp at he
            | cons c cs => simp

theorem getPropGo_skip (obj : Catalog) (rest : List Str) :
    getPropGo obj ([] :: rest) = getPropGo obj rest := rfl

theorem getPropGo_cons_ne {k : Str} (obj : Catalog) (rest : List Str)
    (hk : k.isEmpty = false) :
    getPropGo obj (k :: rest) =
      match lookupAssoc obj k with
      | none => none
      | some e =>
        if entryFalsy e then none
        else
          match e with
          | .str s => if rest.isEmpty then some (s, none) else none
          | .pair s o => if rest.isEmpty then some (s, o) else none
          | .obj o2 => getPropGo o2 rest := by
  rw [getPropGo, if_neg (by rw [hk]; exact Bool.false_ne_true)]

theorem getPropGo_missing {obj : Catalog} {k : Str} (rest : List Str)
    (hk : k.isEmpty = false) (hc : lookupAssoc obj k = none) :
    getPropGo obj (k :: rest) = none := by
  rw [getPropGo_cons_ne obj rest hk, hc]

theorem getPropGo_falsy {obj : Catalog} {k : Str} (rest : List Str)
    (hk : k.isEmpty = false) (hc : lookupAssoc obj k = some (Entry.str [])) :
    getPropGo obj (k :: rest) = none := by
  rw [getPropGo_cons_ne obj rest hk, hc]
  rfl

theorem getPropGo_nonfinal_str {obj : Catalog} {k s : Str} {rest : List Str}
    (hk : k.isEmpty = false) (hr : rest ≠ [])
    (hc : lookupAssoc obj k = some (Entry.str s)) :
    getPropGo obj (k :: rest) = none := by
  rw [getPropGo_cons_ne obj rest hk, hc]
  show (if entryFalsy (Entry.str s) then none
        else if rest.isEmpty then some (s, (none : Option ParamOptions))
        else none) = none
  by_cases hf : entryFalsy (Entry.str s) = true
  · rw [if_pos hf]
  · rw [if_neg hf, if_neg (by cases rest with
      | nil => exact absurd rfl hr
      | cons a as => simp)]

theorem getPropGo_nonfinal_pair {obj : Catalog} {k s : Str} {o : Option ParamOptions}
    {rest : List Str} (hk : k.isEmpty = false) (hr : rest ≠ [])
    (hc : lookupAssoc obj k = some (Entry.pair s o)) :
    getPropGo obj (k :: rest) = none := by
  rw [getPropGo_cons_ne obj rest hk, hc]
  show (if entryFalsy (Entry.pair s o) then none
        else if rest.isEmpty then some (s, o)
        else none) = none
  rw [if_neg (by simp [entryFalsy]), if_neg (by cases rest with
    | nil => exact absurd rfl hr
    | cons a as => simp)]

theorem getPropGo_final_obj {obj : Catalog} {k : Str} {o2 : Catalog}
    (hk : k.isEmpty = false) (hc : lookupAssoc obj k = some (Entry.obj o2)) :
    getPropGo obj [k] = none := by
  rw [getPropGo_cons_ne obj [] hk, hc]
  show (if entryFalsy (Entry.obj o2) then none else getPropGo o2 []) = none
  rw [if_neg (by simp [entryFalsy])]
  rfl

theorem getPropGo_final_str {obj : Catalog} {k s : Str}
    (hk : k.isEmpty = false) (hs : s ≠ [])
    (hc : lookupAssoc obj k = some (Entry.str s)) :
    getPropGo obj [k] = some (s, none) := by
  rw [getPropGo_cons_ne obj [] hk, hc]
  show (if entryFalsy (Entry.str s) then none
        else if List.isEmpty ([] : List Str) then some (s, (none : Option ParamOptions))
        else none) = some (s, none)
  rw [if_neg (by simp [entryFalsy, List.isEmpty_iff, hs])]
  rfl

theorem getPropGo_drop_empty_seg :
    ∀ (segs₁ : List Str) (obj : Catalog) (segs₂ : List Str), segs₂ ≠ [] →
      getPropGo obj (segs₁ ++ [] :: segs₂) = getPropGo obj (segs₁ ++ segs₂) := by
  intro segs₁
  induction segs₁ with
  | nil =>
    intro obj segs₂ _
    rw [List.nil_append, List.nil_append, getPropGo_skip]
  | cons k segs₁' ih =>
    intro obj segs₂ h2
    rw [List.cons_append, List.cons_append]
    by_cases hk : k.isEmpty = true
    · have hknil : k = [] := by
        cases k with
        | nil => rfl
        | cons c cs => simp at hk
      subst hknil
      rw [getPropGo_skip, getPropGo_skip]
      exact ih obj segs₂ h2
    · have hk' : k.isEmpty = false := by
        cases hb : k.isEmpty with
        | true => exact absurd hb hk
        | false => rfl
      have hne₁ : (segs₁' ++ [] :: segs₂).isEmpty = false := by
        cases h : segs₁' ++ [] :: segs₂ with
        | nil => exact absurd h (by simp)
        | cons a as => rfl
      have hne₂ : (segs₁' ++ segs₂).isEmpty = false := by
        cases h : segs₁' ++ segs₂ with
        | nil =>
          rcases List.append_eq_nil.mp h with ⟨-, h2'⟩
          exact absurd h2' h2
        | cons a as => rfl
      rw [getPropGo_cons_ne obj _ hk', getPropGo_cons_ne obj _ hk']
      cases hc : lookupAssoc obj k with
      | none => rfl
      | some e =>
        cases e with
        | str s =>
          show (if entryFalsy (Entry.str s) then none
                else if (segs₁' ++ [] :: segs₂).isEmpty then some (s, (none : Option ParamOptions))
                else none) =
            (if entryFalsy (Entry.str s) then none
             else if (segs₁' ++ segs₂).isEmpty then some (s, (none : Option ParamOptions))
             else none)
          rw [hne₁, hne₂]
        | pair s o =>
          show (if entryFalsy (Entry.pair s o) then none
                else if (segs₁' ++ [] :: segs₂).isEmpty then some (s, o)
                else none) =
            (if entryFalsy (Entry.pair s o) then none
             else if (segs₁' ++ segs₂).isEmpty then some (s, o)
             else none)
          rw [hne₁, hne₂]
        | obj o2 =>
          show (if entryFalsy (Entry.obj o2) then none else getPropGo o2 (segs₁' ++ [] :: segs₂)) =
            (if entryFalsy (Entry.obj o2) then none else getPropGo o2 (segs₁' ++ segs₂))
          rw [ih o2 segs₂ h2]

theorem mem_insertOrderDedup (l : List Str) (x : Str) :
    x ∈ insertOrderDedup l ↔ x ∈ l :=
  mem_dedupGo l.length l x (Nat.le_refl _)

theorem nodup_insertOrderDedup (l : List Str) : (insertOrderDedup l).Nodup :=
  nodup_dedupGo l.length l (Nat.le_refl _)

theorem pairwise_insertOrderDedup (l : List Str) :
    (insertOrderDedup l).Pairwise (fun a b => firstIdx a l < firstIdx b l) :=
  pairwise_firstIdx_dedupGo l.length l (Nat.le_refl _)

theorem insertOrderDedup_cons (x : Str) (xs : List Str) :
    insertOrderDedup (x :: xs) =
      x :: insertOrderDedupGo xs.length (xs.filter (fun y => y != x)) := rfl

theorem performSubstitution_single_nonplural {env : IntlEnv} {loc : Str}
    {opts : Option ParamOptions} {tmpl name k ty : Str} (v : Arg)
    (h : findMatch tmpl name = some (k, some ty)) (hty : ty ≠ pluralLit) :
    performSubstitution env tmpl opts [(name, v)] loc =
      .ok (replaceFirst tmpl k (argToStr env v)) := by
  rw [performSubstitution, substStep_nonplural_typed v h hty]
  rfl

theorem performSubstitution_single_plural_badkind {env : IntlEnv} {loc : Str}
    {opts : Option ParamOptions} {tmpl name k : Str} (v : Str)
    (h : findMatch tmpl name = some (k, some pluralLit)) :
    performSubstitution env tmpl opts [(name, Arg.str v)] loc = .error invalidArgMsg := by
  rw [performSubstitution, substStep_plural_badkind v h]

theorem performSubstitution_single_plural_noconfig {env : IntlEnv} {loc : Str}
    {opts : Option ParamOptions} {tmpl name k : Str} (n : ℚ)
    (h : findMatch tmpl name = some (k, some pluralLit))
    (hpo : pluralOptionsFor opts name = none) :
    performSubstitution env tmpl opts [(name, Arg.num n)] loc = .error pluralMustMsg := by
  rw [performSubstitution, substStep_plural_noconfig n h hpo]

/-- Claim C1 (counterexample): the engine does not stop at the first
locale whose catalog contains the key.  With the English catalog mapping
`greet` to the template `{name}` and the argument `name` bound to the
empty string, the English substitution succeeds with `""`; because `t`
tests `if (!translation) continue` on the resulting string, the empty
result is skipped and the Spanish fallback's `"x"` is returned instead
of the first locale's substituted message. -/
theorem translate_empty_hit_falls_through :
    performSubstitution envEn "{name}".toList none
      [("name".toList, Arg.str [])] "en".toList = .ok ([] : Str) ∧
    initI18n envEn cfgEx "greet".toList [("name".toList, Arg.str [])] =
      .ok "x".toList :=
  ⟨rfl, rfl⟩

/-- Claim C1 (amended): if no locale in the chain yields a catalog hit,
`t` returns the key unchanged and throws nothing; and on the first
locale whose catalog contains the key and whose substituted message is
nonempty, `t` returns that message and tries no further locales —
locales whose substitution succeeds with the empty string are skipped
like misses. -/
theorem translate_chain_resolution (env : IntlEnv)
    (translations : List (Str × Catalog)) (key : Str) (args : List (Str × Arg)) :
    (∀ chain, (∀ l ∈ chain, localeMisses translations key l = true) →
       tGo env translations key args chain = .ok key)
  ∧ (∀ (pre : List Str) (loc : Str) (post : List Str) (cat : Catalog)
       (tmpl : Str) (opts : Option ParamOptions) (s : Str),
       (∀ l ∈ pre, localeSkipped env translations key args l = true) →
       lookupAssoc translations loc = some cat →
       getProperty cat key = some (tmpl, opts) →
       performSubstitution env tmpl opts args loc = .ok s → s ≠ [] →
       tGo env translations key args (pre ++ loc :: post) = .ok s) :=
  ⟨fun chain h => tGo_all_missed chain h,
   fun pre _ post _ _ _ _ h hc hg hp hs => tGo_first_hit pre h hc hg hp hs post⟩

theorem translate_chain_resolution_witness :
    tGo envEn cfgEx.translations "greet".toList [("name".toList, Arg.str "J".toList)]
      (["zz".toList] ++ "en".toList :: ["es".toList]) = .ok "J".toList :=
  (translate_chain_resolution envEn cfgEx.translations "greet".toList
      [("name".toList, Arg.str "J".toList)]).2
    ["zz".toList] "en".toList ["es".toList]
    [("greet".toList, Entry.str "{name}".toList)] "{name}".toList none "J".toList
    (by decide) rfl rfl rfl (by decide)

/-- Claim C2: the locale chain built at construction (after lowercasing
each tag) has no duplicates, contains exactly the tags of the
concatenated expansions, preserves the first-occurrence order of that
concatenation, lists the lowercased primary before each of its
ancestors, and contains every ancestor of every fallback tag. -/
theorem localeChain_spec (p : Str) (fs : List Str) :
    (localeChain p fs).Nodup
  ∧ (∀ x, x ∈ localeChain p fs ↔ x ∈ chainConcat p fs)
  ∧ (localeChain p fs).Pairwise
      (fun a b => firstIdx a (chainConcat p fs) < firstIdx b (chainConcat p fs))
  ∧ (∀ a ∈ (getOrderedLocaleAndParentLocales (lowerStr p)).tail,
       lowerStr p ∈ localeChain p fs ∧ a ∈ localeChain p fs ∧
       firstIdx (lowerStr p) (localeChain p fs) < firstIdx a (localeChain p fs))
  ∧ (∀ f ∈ fs, ∀ a ∈ getOrderedLocaleAndParentLocales (lowerStr f),
       a ∈ localeChain p fs) := by
  refine ⟨nodup_insertOrderDedup _, fun x => mem_insertOrderDedup _ x,
    pairwise_insertOrderDedup _, ?_, ?_⟩
  · intro a ha
    cases hE : (lowerStr p).isEmpty with
    | true =>
      exfalso
      have hnil : lowerStr p = [] := by
        cases hp : lowerStr p with
        | nil => rfl
        | cons c cs => rw [hp] at hE; cases hE
      rw [hnil, expansion_nil] at ha
      cases ha
    | false =>
      have hE' : ¬ (lowerStr p).isEmpty = true := by
        rw [hE]; exact Bool.false_ne_true
      obtain ⟨t, hexp, hlen⟩ := expansion_head hE'
      rw [hexp] at ha
      have ha' : a ∈ t := ha
      have hlt := hlen a ha'
      have hne : a ≠ lowerStr p := by
        intro he; rw [he] at hlt; exact Nat.lt_irrefl _ hlt
      have hconcat : chainConcat p fs =
          lowerStr p ::
            (t ++ fs.flatMap (fun l => getOrderedLocaleAndParentLocales (lowerStr l))) := by
        unfold chainConcat
        rw [hexp, List.cons_append]
      have hmemA : a ∈ chainConcat p fs := by
        rw [hconcat]
        exact List.mem_cons_of_mem _ (List.mem_append_left _ ha')
      have hchain : localeChain p fs =
          lowerStr p ::
            insertOrderDedupGo
              (t ++ fs.flatMap (fun l => getOrderedLocaleAndParentLocales (lowerStr l))).length
              ((t ++ fs.flatMap (fun l => getOrderedLocaleAndParentLocales (lowerStr l))).filter
                (fun y => y != lowerStr p)) := by
        unfold localeChain
        rw [hconcat, insertOrderDedup_cons]
      refine ⟨?_, ?_, ?_⟩
      · rw [hchain]; exact List.mem_cons_self _ _
      · exact (mem_insertOrderDedup _ a).mpr hmemA
      · rw [hchain, firstIdx_cons_self,
          firstIdx_cons_ne _ (fun he => hne he.symm)]
        exact Nat.succ_pos _
  · intro f hf a ha
    exact (mem_insertOrderDedup (chainConcat p fs) a).mpr
      (List.mem_append_right _ (List.mem_flatMap.mpr ⟨f, hf, ha⟩))

theorem localeChain_spec_witness :
    (localeChain "en-US".toList ["es".toList]).Nodup ∧
    lowerStr "en-US".toList ∈ localeChain "en-US".toList ["es".toList] ∧
    firstIdx (lowerStr "en-US".toList) (localeChain "en-US".toList ["es".toList]) <
      firstIdx "en".toList (localeChain "en-US".toList ["es".toList]) ∧
    "es".toList ∈ localeChain "en-US".toList ["es".toList] := by
  have h := localeChain_spec "en-US".toList ["es".toList]
  have h4 := h.2.2.2.1 "en".toList (by decide)
  have h5 := h.2.2.2.2 "es".toList (by decide) "es".toList (by decide)
  exact ⟨h.1, h4.1, h4.2.2, h5⟩

/-- Claim C3 (counterexample): a final segment resolving to a bare
string is not always returned as a Message — the empty bare string is
falsy, so lookup reports absent instead of returning `("", null)`. -/
theorem getProperty_empty_template_example :
    getProperty [("a".toList, Entry.str [])] "a".toList = none ∧
    getProperty [("a".toList, Entry.str [])] "a".toList ≠
      some (([] : Str), (none : Option ParamOptions)) :=
  ⟨rfl, by decide⟩

/-- Claim C3 (amended): lookup is absent whenever a non-final segment
resolves to a Message (bare string or `dt` pair) or to nothing, and
whenever the final segment resolves to a nested Catalog; a final
segment resolving to a *nonempty* bare string is returned as a Message
with null parameter options (the empty bare string is falsy and
reported absent). -/
theorem getProperty_lookup_spec :
    (∀ (obj : Catalog) (k : Str) (rest : List Str), k.isEmpty = false →
       lookupAssoc obj k = none → getPropGo obj (k :: rest) = none)
  ∧ (∀ (obj : Catalog) (k s : Str) (rest : List Str), k.isEmpty = false →
       rest ≠ [] → lookupAssoc obj k = some (Entry.str s) →
       getPropGo obj (k :: rest) = none)
  ∧ (∀ (obj : Catalog) (k s : Str) (o : Option ParamOptions) (rest : List Str),
       k.isEmpty = false → rest ≠ [] →
       lookupAssoc obj k = some (Entry.pair s o) →
       getPropGo obj (k :: rest) = none)
  ∧ (∀ (obj : Catalog) (k : Str) (o2 : Catalog), k.isEmpty = false →
       lookupAssoc obj k = some (Entry.obj o2) → getPropGo obj [k] = none)
  ∧ (∀ (obj : Catalog) (k s : Str), k.isEmpty = false → s ≠ [] →
       lookupAssoc obj k = some (Entry.str s) →
       getPropGo obj [k] = some (s, none)) :=
  ⟨fun _ _ rest hk hc => getPropGo_missing rest hk hc,
   fun _ _ _ _ hk hr hc => getPropGo_nonfinal_str hk hr hc,
   fun _ _ _ _ _ hk hr hc => getPropGo_nonfinal_pair hk hr hc,
   fun _ _ _ hk hc => getPropGo_final_obj hk hc,
   fun _ _ _ hk hs hc => getPropGo_final_str hk hs hc⟩

theorem getProperty_lookup_spec_witness :
    getPropGo [("a".toList, Entry.obj [("b".toList, Entry.str "X".toList)])]
      ["a".toList] = none ∧
    getPropGo [("a".toList, Entry.str "X".toList)] ["a".toList] =
      some ("X".toList, none) :=
  ⟨getProperty_lookup_spec.2.2.2.1 _ "a".toList
      [("b".toList, Entry.str "X".toList)] (by decide) rfl,
   getProperty_lookup_spec.2.2.2.2 _ "a".toList "X".toList (by decide) (by decide) rfl⟩

/-- Claim C4: for a plural-typed placeholder with a numeric argument,
substitution selects the plural category via the environment's CLDR
selector (with the rule set's declared mode), takes that category's
text or falls back to the mandatory `other` text, and replaces every
`{?}` marker in the selected text with the value formatted by the rule
set's own number-format options.  The `regexSafeName` hypothesis
confines the statement to parameter names for which the source's
dynamically built regex denotes the literal placeholder, and the
`dollarFree` hypotheses to category texts and formatted numbers that
JS `$`-expansion leaves verbatim — the domain on which the embedded
match and replacement coincide with the source's; the second conjunct
shows the composed replacement stays in that domain, and the third
that `{?}` replacement really rewrites each occurrence. -/
theorem plural_substitution_spec :
    (∀ (env : IntlEnv) (loc : Str) (opts : Option ParamOptions) (name : Str)
       (po : PluralOptions) (n : ℚ) (tmpl k : Str),
       regexSafeName name = true →
       findMatch tmpl name = some (k, some pluralLit) →
       pluralOptionsFor opts name = some po →
       dollarFree ((po.get? (env.pluralSelect loc po.type n)).getD po.other) = true →
       dollarFree (env.formatNumber loc po.formatter n) = true →
       performSubstitution env tmpl opts [(name, Arg.num n)] loc =
         .ok (replaceFirst tmpl k
           (replaceQAll (env.formatNumber loc po.formatter n)
             ((po.get? (env.pluralSelect loc po.type n)).getD po.other))))
  ∧ (∀ (r s : Str), dollarFree r = true → dollarFree s = true →
       dollarFree (replaceQAll r s) = true)
  ∧ (∀ (r v u : Str), hasQ u = false →
       replaceQAll r (u ++ qpat ++ v) = u ++ r ++ replaceQAll r v) :=
  ⟨fun _ _ _ _ _ n _ _ _ h hpo _ _ => performSubstitution_single_plural n h hpo,
   fun _ _ hr hs => dollarFree_replaceQAll hr hs,
   fun r v u hu => replaceQAll_append r v u hu⟩

theorem plural_substitution_spec_witness :
    performSubstitution envEn "You have {messages:plural}".toList (some optsMsgs)
      [("messages".toList, Arg.num 2)] "en".toList =
      .ok "You have 2 messages".toList := by
  have h := plural_substitution_spec.1 envEn "en".toList (some optsMsgs)
    "messages".toList poMsgs 2 "You have {messages:plural}".toList
    "{messages:plural}".toList (by decide) rfl rfl (by decide) (by decide)
  rw [h]
  rfl

/-- Claim C5: contrary to the spec and to the repository's own test
suite, a `{name:number}` placeholder is not formatted with the declared
number options — the `switch` in `performSubstitution` has no `number`
case, so the default branch substitutes `String(value)`.  For every
environment and numeric value the declared currency options are ignored
(first conjunct); at the test fixture's input `price = 12` the code
yields `"The cost of this is 12"` where the test expects
`"The cost of this is $12.00"` (second conjunct). -/
theorem number_placeholder_ignores_options :
    (∀ (env : IntlEnv) (q : ℚ),
       performSubstitution env "The cost of this is {price:number}".toList
         (some optsUSD) [("price".toList, Arg.num q)] "en".toList =
         .ok ("The cost of this is ".toList ++ env.numToString q))
  ∧ performSubstitution envEn "The cost of this is {price:number}".toList
      (some optsUSD) [("price".toList, Arg.num 12)] "en".toList =
      .ok "The cost of this is 12".toList := by
  constructor
  · intro env q
    have h := @performSubstitution_single_nonplural env "en".toList (some optsUSD)
      "The cost of this is {price:number}".toList "price".toList
      "{price:number}".toList "number".toList (Arg.num q)
      (show findMatch "The cost of this is {price:number}".toList "price".toList =
        some ("{price:number}".toList, some "number".toList) from rfl)
      (by decide)
    rw [h]
    have h2 : replaceFirst "The cost of this is {price:number}".toList
        "{price:number}".toList (argToStr env (Arg.num q)) =
        "The cost of this is ".toList ++ (env.numToString q ++ []) := rfl
    rw [h2, List.append_nil]
  · rfl

/-- Claim C6 (counterexample): replacement is not global — with the
template `{name} {name}` and the argument `name = "x"`, only the first
occurrence is replaced and the second survives in the output. -/
theorem substitution_first_occurrence_example :
    performSubstitution envEn "{name} {name}".toList none
      [("name".toList, Arg.str "x".toList)] "en".toList =
      .ok "x {name}".toList := rfl

/-- Claim C6 (amended): for each supplied argument whose name is free
of regex metacharacters and whose substituted text contains no `$`
substitution pattern, substitution replaces exactly the first
occurrence of its placeholder — the template splits as
`a ++ placeholder ++ b` with no occurrence inside `a`, and the result
is `a ++ value ++ b`, leaving any later occurrences in `b` untouched.
The two hypotheses confine the statement to the domain on which the
embedded match and verbatim insertion coincide with the source's regex
match and `$`-expanding `String.replace`. -/
theorem substitution_replaces_first_occurrence (env : IntlEnv) (loc : Str)
    (opts : Option ParamOptions) (name : Str) (v : Arg) (tmpl k : Str)
    (_hsafe : regexSafeName name = true)
    (_hdollar : dollarFree (argToStr env v) = true)
    (h : findMatch tmpl name = some (k, none)) :
    ∃ a b, tmpl = a ++ k ++ b ∧ occursIn k a = false ∧
      performSubstitution env tmpl opts [(name, v)] loc =
        .ok (a ++ argToStr env v ++ b) := by
  rcases findMatch_untyped_occurs tmpl k h with ⟨hk, hocc⟩
  subst hk
  rcases replaceFirst_split (List.cons_ne_nil _ _) tmpl hocc with ⟨a, b, he, hna, hrw⟩
  refine ⟨a, b, he, hna, ?_⟩
  rw [performSubstitution_single_untyped v h]
  exact congrArg Except.ok (hrw (argToStr env v))

theorem substitution_replaces_first_occurrence_witness :
    ∃ a b, "{name} {name}".toList = a ++ "{name}".toList ++ b ∧
      occursIn "{name}".toList a = false ∧
      performSubstitution envEn "{name} {name}".toList none
        [("name".toList, Arg.str "x".toList)] "en".toList =
        .ok (a ++ argToStr envEn (Arg.str "x".toList) ++ b) :=
  substitution_replaces_first_occurrence envEn "en".toList none "name".toList
    (Arg.str "x".toList) "{name} {name}".toList "{name}".toList
    (by decide) (by decide) rfl

/-- Claim C7 (counterexample): a `number` placeholder receiving a
string argument does not raise a type-mismatch error — the `switch` has
no `number` case, so the default branch substitutes the string and
succeeds. -/
theorem number_type_mismatch_does_not_raise :
    performSubstitution envEn "x {n:number}".toList (some optsUSD)
      [("n".toList, Arg.str "hi".toList)] "en".toList = .ok "x hi".toList ∧
    ∀ e, performSubstitution envEn "x {n:number}".toList (some optsUSD)
      [("n".toList, Arg.str "hi".toList)] "en".toList ≠ .error e := by
  refine ⟨rfl, fun e h => ?_⟩
  have heval : performSubstitution envEn "x {n:number}".toList (some optsUSD)
      [("n".toList, Arg.str "hi".toList)] "en".toList = .ok "x hi".toList := rfl
  rw [heval] at h
  exact Except.noConfusion h

/-- Claim C7 (amended): for substitutions whose argument names are
free of regex metacharacters — so the source's dynamically built
pattern compiles and means the literal placeholder — exactly two error
kinds are raised, both only from `plural` placeholders and with fixed
messages that do not name the parameter:
`Error("Invalid argument type")` when a plural placeholder's argument
is not a number, and `Error("Plural options must be defined")` when no
plural rule set is declared for the parameter; `number` and `date`
placeholders never raise, and no other condition raises.  (For names
containing metacharacters, the source's unescaped interpolation into
`new RegExp` can additionally throw a SyntaxError, an injection slip
outside this statement's scope.) -/
theorem substitution_error_taxonomy :
    (∀ (env : IntlEnv) (loc : Str) (opts : Option ParamOptions)
       (args : List (Str × Arg)) (tmpl e : Str),
       (∀ pr ∈ args, regexSafeName pr.1 = true) →
       performSubstitution env tmpl opts args loc = .error e →
       e = invalidArgMsg ∨ e = pluralMustMsg)
  ∧ (∀ (env : IntlEnv) (loc : Str) (opts : Option ParamOptions)
       (tmpl name k v : Str),
       regexSafeName name = true →
       findMatch tmpl name = some (k, some pluralLit) →
       performSubstitution env tmpl opts [(name, Arg.str v)] loc =
         .error invalidArgMsg)
  ∧ (∀ (env : IntlEnv) (loc : Str) (opts : Option ParamOptions)
       (tmpl name k : Str) (n : ℚ),
       regexSafeName name = true →
       findMatch tmpl name = some (k, some pluralLit) →
       pluralOptionsFor opts name = none →
       performSubstitution env tmpl opts [(name, Arg.num n)] loc =
         .error pluralMustMsg) :=
  ⟨fun _ _ _ args tmpl _ _ h => performSubstitution_error_msg args tmpl h,
   fun _ _ _ _ _ _ v _ h => performSubstitution_single_plural_badkind v h,
   fun _ _ _ _ _ _ n _ h hpo => performSubstitution_single_plural_noconfig n h hpo⟩

theorem substitution_error_taxonomy_witness :
    performSubstitution envEn "You have {messages:plural}".toList (some optsMsgs)
      [("messages".toList, Arg.str "two".toList)] "en".toList =
      .error invalidArgMsg :=
  substitution_error_taxonomy.2.1 envEn "en".toList (some optsMsgs)
    "You have {messages:plural}".toList "messages".toList
    "{messages:plural}".toList "two".toList (by decide) rfl

/-- Claim C8: the intended contract — substitution is the identity on
templates with no placeholders, and arguments whose names match no
placeholder are ignored without error — holds exactly for argument
names free of regex metacharacters, the domain on which the source's
dynamically built pattern means the literal placeholder.  The source
violates the contract outside that domain: it interpolates the name
unescaped into `new RegExp`, so a name such as `(` makes
`result.match` throw a RegExp SyntaxError, and a name such as `a|b`
turns the pattern into an alternation that can match and rewrite a
placeholder-free template (e.g. `b}`).  This theorem therefore both
backs the claim's intent and delimits the injection bug: the deviation
is confined to metacharacter names. -/
theorem substitution_identity_on_unmatched :
    (∀ (env : IntlEnv) (loc : Str) (opts : Option ParamOptions) (tmpl : Str)
       (args : List (Str × Arg)), lbrace ∉ tmpl →
       (∀ pr ∈ args, regexSafeName pr.1 = true) →
       performSubstitution env tmpl opts args loc = .ok tmpl)
  ∧ (∀ (env : IntlEnv) (loc : Str) (opts : Option ParamOptions) (tmpl : Str)
       (args : List (Str × Arg)),
       (∀ pr ∈ args, regexSafeName pr.1 = true ∧ findMatch tmpl pr.1 = none) →
       performSubstitution env tmpl opts args loc = .ok tmpl) :=
  ⟨fun _ _ _ tmpl args h _ =>
     performSubstitution_no_matches args tmpl
       (fun _ _ => findMatch_no_lbrace tmpl h),
   fun _ _ _ tmpl args h =>
     performSubstitution_no_matches args tmpl (fun pr hpr => (h pr hpr).2)⟩

theorem substitution_identity_on_unmatched_witness :
    performSubstitution envEn "Simple message".toList none
      [("extra".toList, Arg.num 3)] "en".toList = .ok "Simple message".toList :=
  substitution_identity_on_unmatched.1 envEn "en".toList none
    "Simple message".toList [("extra".toList, Arg.num 3)] (by decide) (by decide)

/-- Claim C9 (counterexample): empty segments are not harmless — a
trailing dot makes lookup of a Message fail, because the final-segment
test `i !== keys.length - 1` counts the empty segment produced by the
split, so `"a."` is absent while `"a"` resolves. -/
theorem trailing_dot_lookup_fails :
    getProperty [("a".toList, Entry.str "X".toList)] "a.".toList = none ∧
    getProperty [("a".toList, Entry.str "X".toList)] "a".toList =
      some ("X".toList, none) :=
  ⟨rfl, rfl⟩

/-- Claim C9 (amended): an empty segment is skipped when the walk
reaches it, so removing an empty segment that is followed by at least
one more segment never changes the result (leading and doubled dots are
harmless); but an empty segment *after* the final non-empty segment (a
trailing dot) still counts for the final-segment test, making Message
lookups under it fail. -/
theorem empty_segments_skipped :
    (∀ (obj : Catalog) (rest : List Str),
       getPropGo obj ([] :: rest) = getPropGo obj rest)
  ∧ (∀ (obj : Catalog) (segs₁ segs₂ : List Str), segs₂ ≠ [] →
       getPropGo obj (segs₁ ++ [] :: segs₂) = getPropGo obj (segs₁ ++ segs₂)) :=
  ⟨fun obj rest => getPropGo_skip obj rest,
   fun obj segs₁ segs₂ h => getPropGo_drop_empty_seg segs₁ obj segs₂ h⟩

theorem empty_segments_skipped_witness :
    getPropGo [("a".toList, Entry.obj [("b".toList, Entry.str "X".toList)])]
      (["a".toList] ++ [] :: ["b".toList]) =
    getPropGo [("a".toList, Entry.obj [("b".toList, Entry.str "X".toList)])]
      (["a".toList] ++ ["b".toList]) :=
  empty_segments_skipped.2 _ ["a".toList] ["b".toList] (by decide)

/-- Claim C10: a falsy node — in particular a bare empty-string
template — makes lookup report absent for that locale, and the engine
loop can only ever return a nonempty substituted message or the key
itself, so an empty-string translation is never returned. -/
theorem falsy_absent_nonempty_result :
    (∀ (obj : Catalog) (k : Str) (rest : List Str), k.isEmpty = false →
       lookupAssoc obj k = some (Entry.str []) →
       getPropGo obj (k :: rest) = none)
  ∧ (∀ (env : IntlEnv) (translations : List (Str × Catalog)) (key : Str)
       (args : List (Str × Arg)) (chain : List Str) (s : Str),
       tGo env translations key args chain = .ok s → s = key ∨ s ≠ []) :=
  ⟨fun _ _ rest hk hc => getPropGo_falsy rest hk hc,
   fun _ _ _ _ chain s h => tGo_ok_result chain s h⟩

theorem falsy_absent_nonempty_result_witness :
    getPropGo [("a".toList, Entry.str [])] ["a".toList] = none ∧
    ("x".toList = "greet".toList ∨ "x".toList ≠ []) :=
  ⟨falsy_absent_nonempty_result.1 _ "a".toList [] (by decide) rfl,
   falsy_absent_nonempty_result.2 envEn cfgEx.translations "greet".toList
     [("name".toList, Arg.str [])] ["en".toList, "es".toList] "x".toList rfl⟩

end Voxnova
